import Mathlib

/-!
Shallow embedding of `analyse_windows_ci_times.py`: a reporting script that
lists completed CI workflow runs of a repository, fetches each retained
run's job listing, keeps Windows jobs that concluded successfully, computes
their wall-clock durations, and writes a fixed-schema CSV report.
-/

namespace CondaCI

attribute [local semireducible] Rat.mul Rat.inv Rat.add Rat.sub

/-! ### Python string primitives

Python strings are embedded as Lean `String`; `str.lower()` is modelled
character-wise and the `in` operator as contiguous-substring containment. -/

/-- `headMatches needle hay`: `needle` occurs at the very start of `hay`. -/
def headMatches : List Char → List Char → Bool
  | [], _ => true
  | _ :: _, [] => false
  | c :: cs, d :: ds => c == d && headMatches cs ds

/-- `hasSub hay needle`: `needle` occurs contiguously somewhere in `hay`
(the semantics of Python's `in` operator on strings). -/
def hasSub : List Char → List Char → Bool
  | [], needle => needle.isEmpty
  | hay@(_ :: rest), needle => headMatches needle hay || hasSub rest needle

/-- Python `s.lower()`: character-wise lowercasing. -/
def pyLower (s : String) : String := ⟨s.data.map Char.toLower⟩

/-- Python `needle in hay` for strings. -/
def pyIn (needle hay : String) : Bool := hasSub hay.data needle.data

/-! ### Timestamps

`datetime.strptime(s, "%Y-%m-%dT%H:%M:%SZ")` parses the fixed UTC format the
API emits, and `datetime` subtraction measures the difference of the two
instants; `timedelta.total_seconds()` expresses it in seconds.  Day counts
use the standard proleptic-Gregorian civil-calendar algorithm, matching
`datetime`'s calendar; only differences of two such counts ever matter. -/

structure DateTimeV where
  year : Nat
  month : Nat
  day : Nat
  hour : Nat
  minute : Nat
  second : Nat
  deriving DecidableEq, Repr

def isLeapYear (y : Nat) : Bool :=
  y % 4 == 0 && (y % 100 != 0 || y % 400 == 0)

def daysInMonth (y m : Nat) : Nat :=
  if m == 2 then (if isLeapYear y then 29 else 28)
  else if m == 4 || m == 6 || m == 9 || m == 11 then 30
  else 31

/-- Days since 1970-01-01 of a proleptic-Gregorian civil date. -/
def daysFromCivil (y m d : Int) : Int :=
  let y2 := if m ≤ 2 then y - 1 else y
  let era := (if 0 ≤ y2 then y2 else y2 - 399) / 400
  let yoe := y2 - era * 400
  let mp := (m + 9) % 12
  let doy := (153 * mp + 2) / 5 + d - 1
  let doe := yoe * 365 + yoe / 4 - yoe / 100 + doy
  era * 146097 + doe - 719468

/-- Seconds since the Unix epoch of a parsed UTC timestamp. -/
def toEpochSeconds (t : DateTimeV) : Int :=
  daysFromCivil (t.year) (t.month) (t.day) * 86400
    + (t.hour : Int) * 3600 + (t.minute : Int) * 60 + (t.second : Int)

def digitVal (c : Char) : Option Nat :=
  if c.isDigit then some (c.toNat - ('0').toNat) else none

/-- Read exactly `n` decimal digits, most significant first. -/
def parseDigits : Nat → Nat → List Char → Option (Nat × List Char)
  | 0, acc, cs => some (acc, cs)
  | _ + 1, _, [] => none
  | n + 1, acc, c :: cs =>
    match digitVal c with
    | some d => parseDigits n (acc * 10 + d) cs
    | none => none

def parseLit (c : Char) : List Char → Option (List Char)
  | d :: rest => if c == d then some rest else none
  | [] => none

/-- `datetime.strptime(s, "%Y-%m-%dT%H:%M:%SZ")`, restricted to the
zero-padded fixed-width form the API emits (CPython additionally tolerates
some shorter digit runs; no such input occurs here).  Returns `none`
exactly where `strptime` or the `datetime` constructor would raise. -/
def parseTimestamp (s : String) : Option DateTimeV := do
  let (y, r1) ← parseDigits 4 0 s.data
  let r2 ← parseLit ('-') r1
  let (mo, r3) ← parseDigits 2 0 r2
  let r4 ← parseLit ('-') r3
  let (d, r5) ← parseDigits 2 0 r4
  let r6 ← parseLit ('T') r5
  let (h, r7) ← parseDigits 2 0 r6
  let r8 ← parseLit (':') r7
  let (mi, r9) ← parseDigits 2 0 r8
  let r10 ← parseLit (':') r9
  let (se, r11) ← parseDigits 2 0 r10
  let r12 ← parseLit ('Z') r11
  if r12.isEmpty ∧ 1 ≤ y ∧ y ≤ 9999 ∧ 1 ≤ mo ∧ mo ≤ 12 ∧ 1 ≤ d ∧
      d ≤ daysInMonth y mo ∧ h ≤ 23 ∧ mi ≤ 59 ∧ se ≤ 59 then
    some ⟨y, mo, d, h, mi, se⟩
  else none

/-! ### Data model -/

structure WorkflowRun where
  id : Nat
  created_at : String
  conclusion : String
  jobs_url : String
  deriving DecidableEq, Repr

structure Job where
  name : String
  conclusion : String
  started_at : String
  completed_at : String
  deriving DecidableEq, Repr

structure ResultRow where
  run_id : Nat
  run_date : String
  job_name : String
  duration_seconds : ℚ
  duration_minutes : ℚ
  deriving DecidableEq, Repr

/-- An error that aborts the whole batch: an HTTP error status raised by
`raise_for_status`, or a timestamp `strptime` failure. -/
inductive FetchError where
  | http (status : Nat)
  | badTimestamp (s : String)
  deriving DecidableEq, Repr

instance {ε α : Type} [DecidableEq ε] [DecidableEq α] : DecidableEq (Except ε α) :=
  fun x y =>
    match x, y with
    | .error a, .error b =>
      if h : a = b then .isTrue (by rw [h]) else .isFalse (by intro hc; cases hc; exact h rfl)
    | .error _, .ok _ => .isFalse (by intro hc; cases hc)
    | .ok _, .error _ => .isFalse (by intro hc; cases hc)
    | .ok a, .ok b =>
      if h : a = b then .isTrue (by rw [h]) else .isFalse (by intro hc; cases hc; exact h rfl)

/-! ### Filter & Transform (`fetch_jobs_for_run`, lines 137-158) -/

/-- The per-job test on line 142:
`"windows" in job["name"].lower() and job["conclusion"] == "success"`. -/
def jobIncluded (j : Job) : Bool :=
  pyIn ("windows") (pyLower j.name) && decide (j.conclusion = "success")

/-- Duration of a job (lines 143-146): `strptime(completed_at) -
strptime(started_at)`, in seconds, as an exact rational. -/
def jobDuration (j : Job) : Option ℚ := do
  let tc ← parseTimestamp j.completed_at
  let ts ← parseTimestamp j.started_at
  some ((toEpochSeconds tc - toEpochSeconds ts : ℤ) : ℚ)

/-- The dict appended on lines 148-156. -/
def mkRow (run : WorkflowRun) (j : Job) (d : ℚ) : ResultRow :=
  ⟨run.id, run.created_at, j.name, d, d / 60⟩

/-- The row a job contributes, when its timestamps parse. -/
def rowOfJob (run : WorkflowRun) (j : Job) : Option ResultRow :=
  (jobDuration j).map (mkRow run j)

/-- The result-building loop of `fetch_jobs_for_run` (lines 137-158): keep
Windows jobs that concluded successfully and compute each duration; a
timestamp that fails to parse raises, aborting the batch (`completed_at` is
parsed first, as in the source). -/
def processJobs (run : WorkflowRun) : List Job → Except FetchError (List ResultRow)
  | [] => .ok []
  | j :: rest =>
    if jobIncluded j then
      match parseTimestamp j.completed_at with
      | none => .error (.badTimestamp j.completed_at)
      | some tc =>
        match parseTimestamp j.started_at with
        | none => .error (.badTimestamp j.started_at)
        | some ts =>
          match processJobs run rest with
          | .error e => .error e
          | .ok rows =>
            .ok (mkRow run j ((toEpochSeconds tc - toEpochSeconds ts : ℤ) : ℚ) :: rows)
    else processJobs run rest

/-- Spec-side reading of the platform filter: some contiguous piece of
`name` lowercases to the token `"windows"`. -/
def nameHasWindows (name : String) : Prop :=
  ∃ pre mid post, name.data = pre ++ mid ++ post ∧
    mid.map Char.toLower = ("windows").data

/-! ### Run Lister (module-level pagination loop, lines 82-109) -/

/-- One response of the workflow-runs listing endpoint: its HTTP status and
the parsed `workflow_runs` array.  `raise_for_status` (requests and aiohttp
alike) raises exactly for statuses in the 4xx/5xx range. -/
structure RunsPage where
  status : Nat
  runs : List WorkflowRun
  deriving DecidableEq, Repr

/-- The page-scanning loop of lines 100-106: examine the page's runs in
order; at the first run created before the cutoff clear `should_continue`
and stop scanning; otherwise retain the run iff its conclusion is success.
A `created_at` that fails to parse raises.  Returns the retained runs of
the page and the final value of `should_continue`. -/
def scanPage (cutoff : Int) : List WorkflowRun → Except FetchError (List WorkflowRun × Bool)
  | [] => .ok ([], true)
  | r :: rs =>
    match parseTimestamp r.created_at with
    | none => .error (.badTimestamp r.created_at)
    | some t =>
      if toEpochSeconds t < cutoff then .ok ([], false)
      else
        match scanPage cutoff rs with
        | .error e => .error e
        | .ok (kept, cont) =>
          .ok ((if r.conclusion = "success" then [r] else []) ++ kept, cont)

/-- The `while should_continue` pagination loop of lines 86-109, over the
successive pages the endpoint serves (requests go out for pages 1, 2, ...
in order, so consuming the list head-first; a request past the served list
comes back as an empty 200 response and line 97 breaks).  Returns how many
pages were requested together with either the retained runs or the error
that aborted the batch. -/
def listRunsFrom (cutoff : Int) (acc : List WorkflowRun) :
    List RunsPage → Nat × Except FetchError (List WorkflowRun)
  | [] => (1, .ok acc)
  | p :: rest =>
    if 400 ≤ p.status then (1, .error (.http p.status))
    else if p.runs.isEmpty then (1, .ok acc)
    else
      match scanPage cutoff p.runs with
      | .error e => (1, .error e)
      | .ok (kept, true) =>
        ((listRunsFrom cutoff (acc ++ kept) rest).1 + 1,
         (listRunsFrom cutoff (acc ++ kept) rest).2)
      | .ok (kept, false) => (1, .ok (acc ++ kept))

/-- Spec-side: the run's `created_at` parses and is at or after the cutoff. -/
def runInWindow (cutoff : Int) (r : WorkflowRun) : Bool :=
  match parseTimestamp r.created_at with
  | some t => decide (cutoff ≤ toEpochSeconds t)
  | none => false

/-- Spec-side: the run's `created_at` parses and is strictly before the cutoff. -/
def runTooOld (cutoff : Int) (r : WorkflowRun) : Bool :=
  match parseTimestamp r.created_at with
  | some t => decide (toEpochSeconds t < cutoff)
  | none => false

/-- Spec-side: the run concluded successfully. -/
def isSuccess (r : WorkflowRun) : Bool := decide (r.conclusion = "success")

/-- Spec-side: scanning the page keeps `should_continue` set. -/
def pageContinues (cutoff : Int) (q : RunsPage) : Bool :=
  match scanPage cutoff q.runs with
  | .ok (_, true) => true
  | _ => false

/-- Spec-side: scanning the page clears `should_continue` (a too-old run
was observed on it). -/
def pageStops (cutoff : Int) (q : RunsPage) : Bool :=
  match scanPage cutoff q.runs with
  | .ok (_, false) => true
  | _ => false

/-! ### Job Fetcher (`fetch_jobs_for_run`, lines 114-135) -/

/-- One response of a run's job-listing endpoint: its HTTP status and the
parsed `jobs` array. -/
structure JobsPage where
  status : Nat
  jobs : List Job
  deriving DecidableEq, Repr

/-- The `while True` job-pagination loop of lines 121-135, over the pages
the endpoint serves for one run (requests go out for pages 1, 2, ... with
`per_page = 100`, consuming the list head-first; a request past the served
list returns an empty 200 response, for which line 127 breaks with the
accumulator unchanged).  Breaks on an empty page, or after accumulating a
page of fewer than 100 jobs; an error status raises. -/
def fetchJobPages (acc : List Job) : List JobsPage → Except FetchError (List Job)
  | [] => .ok acc
  | p :: rest =>
    if 400 ≤ p.status then .error (.http p.status)
    else if p.jobs.isEmpty then .ok acc
    else if p.jobs.length < 100 then .ok (acc ++ p.jobs)
    else fetchJobPages (acc ++ p.jobs) rest

/-- Spec-side: the pages the job fetcher consumes: every page up to and
including the first one shorter than the page size. -/
def consumedJobPages : List JobsPage → List (List Job)
  | [] => []
  | p :: rest =>
    if p.jobs.length < 100 then [p.jobs] else p.jobs :: consumedJobPages rest

/-- Spec-side: a job list as a well-behaved endpoint serves it, in pages of
at most 100. -/
def chunkJobs : List Job → List (List Job)
  | [] => []
  | j :: rest => ((j :: rest).take 100) :: chunkJobs ((j :: rest).drop 100)
  termination_by l => l.length
  decreasing_by simp only [List.length_drop, List.length_cons]; omega

/-- Spec-side: the pages of `chunkJobs`, all served with status 200. -/
def chunkPagesOk (L : List Job) : List JobsPage :=
  (chunkJobs L).map (fun c => ⟨200, c⟩)

/-! ### The whole batch -/

/-- The external API a batch run observes: the pages served by the
run-listing endpoint, and by each run's job-listing endpoint (addressed by
the run's `jobs_url`). -/
structure Server where
  runPages : List RunsPage
  jobsPages : String → List JobsPage

/-- `fetch_jobs_for_run` (lines 114-158) for one run: paginate the run's
job list, then filter and transform. -/
def fetchRunRows (srv : Server) (run : WorkflowRun) : Except FetchError (List ResultRow) :=
  match fetchJobPages [] (srv.jobsPages run.jobs_url) with
  | .error e => .error e
  | .ok jobs => processJobs run jobs

/-- `fetch_all_jobs` (lines 161-175), observably: one fetch per run,
results flattened in run order (`asyncio.gather` hands back the task
results in task-submission order).  When several tasks fail, the model
surfaces the first failure in run order; no claim depends on which
failure surfaces, only that one does. -/
def fetchAllRows (srv : Server) : List WorkflowRun → Except FetchError (List ResultRow)
  | [] => .ok []
  | r :: rs =>
    match fetchRunRows srv r with
    | .error e => .error e
    | .ok rows =>
      match fetchAllRows srv rs with
      | .error e => .error e
      | .ok rest => .ok (rows ++ rest)

/-- Per-run outputs in run order, when every fetch succeeds. -/
def rowsPerRun (srv : Server) : List WorkflowRun → Except FetchError (List (List ResultRow))
  | [] => .ok []
  | r :: rs =>
    match fetchRunRows srv r with
    | .error e => .error e
    | .ok rows =>
      match rowsPerRun srv rs with
      | .error e => .error e
      | .ok rest => .ok (rows :: rest)

/-- The whole fetching pipeline (lines 82-175): list the runs, then fetch
and transform every retained run's jobs. -/
def pipeline (srv : Server) (cutoff : Int) : Except FetchError (List ResultRow) :=
  match (listRunsFrom cutoff [] srv.runPages).2 with
  | .error e => .error e
  | .ok runs => fetchAllRows srv runs

/-! ### The concurrent aggregation (`fetch_all_jobs`, lines 161-172)

One task is spawned per run; a completion schedule `σ` lists task indices
in the order the tasks finish.  `asyncio.gather` stores each task's result
in the slot of the task's submission position as the task completes, and
returns the slots in submission order once all tasks have completed. -/

/-- Completion events under schedule `σ`: the indices of `σ` that name real
tasks, in completion order, each carrying its task's output. -/
def taskEvents (tasks : List (List ResultRow)) (σ : List Nat) : List (Nat × List ResultRow) :=
  σ.filterMap (fun i => (tasks[i]?).map (fun v => (i, v)))

/-- Store each completed task's result in its submission slot. -/
def applySlots (slots : List (Option (List ResultRow))) :
    List (Nat × List ResultRow) → List (Option (List ResultRow))
  | [] => slots
  | (i, v) :: es => applySlots (slots.set i (some v)) es

/-- Gather under completion schedule `σ`: the aggregate result exists only
once every slot is filled (otherwise `gather` never returns). -/
def gatherSim (tasks : List (List ResultRow)) (σ : List Nat) : Option (List (List ResultRow)) :=
  if ((applySlots (List.replicate tasks.length none) (taskEvents tasks σ)).filterMap id).length
      = tasks.length then
    some ((applySlots (List.replicate tasks.length none) (taskEvents tasks σ)).filterMap id)
  else none

/-- The flattening loop of lines 168-170 applied to the gathered results. -/
def gatherFlat (tasks : List (List ResultRow)) (σ : List Nat) : Option (List ResultRow) :=
  (gatherSim tasks σ).map List.flatten

/-! ### CSV Writer (lines 181-195) -/

def csvFieldNames : List String :=
  [("run_id"), ("run_date"), ("job_name"), ("duration_seconds"), ("duration_minutes")]

/-- Stand-in for Python's `str(float)` rendering of a duration; no CSV
claim depends on the digits chosen. -/
def ratStr (q : ℚ) : String := toString q

/-- `csv.QUOTE_MINIMAL` with delimiter `,`, quotechar `"` and
lineterminator `"\n"`: a field is quoted iff it contains one of those
characters. -/
def csvNeedsQuote (s : String) : Bool :=
  s.data.any (fun c => c == ',' || c == '"' || c == '\n')

/-- Double every quotechar inside a quoted field. -/
def csvEscape (s : String) : String :=
  ⟨s.data.foldr (fun c acc => if c == '"' then '"' :: '"' :: acc else c :: acc) []⟩

def csvCell (s : String) : String :=
  if csvNeedsQuote s then ("\"") ++ csvEscape s ++ ("\"") else s

/-- `DictWriter` looks each field name up in the row dict. -/
def getCsvField (r : ResultRow) (f : String) : String :=
  if f = ("run_id") then toString r.run_id
  else if f = ("run_date") then r.run_date
  else if f = ("job_name") then r.job_name
  else if f = ("duration_seconds") then ratStr r.duration_seconds
  else if f = ("duration_minutes") then ratStr r.duration_minutes
  else ("")

def csvLine (cells : List String) : String :=
  String.intercalate (",") (cells.map csvCell)

/-- `writer.writeheader()` then `writer.writerows(results)` (lines
194-195): sequential appends to the file, each row terminated by the
configured lineterminator, a lone line feed. -/
def writeCsv (rows : List ResultRow) : String :=
  List.foldl (fun buf r => buf ++ csvLine (csvFieldNames.map (getCsvField r)) ++ ("\n"))
    (csvLine csvFieldNames ++ ("\n")) rows

/-- Spec-side: the report's lines: one header line, then one line per row
in order. -/
def csvLinesSpec (rows : List ResultRow) : List String :=
  csvLine csvFieldNames :: rows.map (fun r => csvLine (csvFieldNames.map (getCsvField r)))

/-- Spec-side: serialize lines to the file's bytes, terminating every line
(the header included) with a lone line feed. -/
def linesToFile : List String → String
  | [] => ("")
  | l :: rest => l ++ ("\n") ++ linesToFile rest

/-- The program's file output, produced only when the whole batch
succeeded (the CSV is written after all fetching completes). -/
def pipelineCsv (srv : Server) (cutoff : Int) : Except FetchError String :=
  match pipeline srv cutoff with
  | .error e => .error e
  | .ok rows => .ok (writeCsv rows)

/-- Spec-side: whether an `Except` computation succeeded. -/
def isOkE {ε α : Type} : Except ε α → Bool
  | .ok _ => true
  | .error _ => false

/-! ### Credential resolution (`check_gh_cli` and `get_gh_token`, lines 24-68) -/

/-- The process environment and the gh CLI's observable behaviour:
`GITHUB_TOKEN` if set, and the outcomes of `gh --version` and
`gh auth token` (`.error` for a `CalledProcessError`, carrying its
stderr). -/
structure CliEnv where
  githubToken : Option String
  ghVersion : Except String String
  ghAuthToken : Except String String
  deriving DecidableEq, Repr

/-- Messages printed on each stream, in order. -/
structure ProcOut where
  stdoutLines : List String
  stderrLines : List String
  deriving DecidableEq, Repr

/-- Outcome of credential resolution: a token, or `sys.exit(code)`. -/
inductive TokenResult where
  | ok (token : String) (out : ProcOut)
  | exit (code : Nat) (out : ProcOut)
  deriving DecidableEq, Repr

/-- Python `str.strip()` with no argument: drop leading and trailing
whitespace (the ASCII whitespace that occurs here). -/
def pyStrip (s : String) : String :=
  ⟨((s.data.dropWhile Char.isWhitespace).reverse.dropWhile Char.isWhitespace).reverse⟩

/-- `check_gh_cli` (lines 24-40) followed by the `gh auth token` path of
`get_gh_token` (lines 52-68).  Every diagnostic is a plain `print(...)` to
standard output, except the installation hint on lines 35-38 which passes
`file=sys.stderr`. -/
def ghCliFlow (env : CliEnv) : TokenResult :=
  match env.ghVersion with
  | .error _ =>
    .exit 1 ⟨[("ERROR: either the GitHub CLI is not found or not working."),
              ("After installation, authenticate with: gh auth login")],
             [("Please install the GitHub CLI from https://cli.github.com/")]⟩
  | .ok v =>
    let found := ("Found gh CLI: ") ++ pyStrip v
    match env.ghAuthToken with
    | .ok outp =>
      let token := pyStrip outp
      if token = ("") then
        .exit 1 ⟨[found, ("ERROR: gh auth token returned empty result"),
                  ("Please authenticate with: gh auth login")], []⟩
      else
        .ok token ⟨[found, ("Successfully retrieved a token from the GitHub CLI")], []⟩
    | .error errText =>
      .exit 1 ⟨[found, ("ERROR: Failed to get token from gh CLI"),
                ("Error: ") ++ errText,
                ("Please authenticate with: gh auth login")], []⟩

/-- `get_gh_token` (lines 43-68): `os.getenv("GITHUB_TOKEN")` wins when set
and non-empty (`if token:` is Python truthiness, so an empty string falls
through to the CLI path). -/
def get_gh_token (env : CliEnv) : TokenResult :=
  match env.githubToken with
  | some t =>
    if t = ("") then ghCliFlow env
    else .ok t ⟨[("Using GITHUB_TOKEN from environment variable")], []⟩
  | none => ghCliFlow env

/-! ### Fixtures used by the witnesses -/

def runC1 : WorkflowRun := ⟨17, "2024-05-01T00:00:00Z", "success", "urlA"⟩

def jobsC1 : List Job :=
  [⟨"Windows (win-64), py312", "success", "2024-05-01T10:00:00Z", "2024-05-01T10:02:05Z"⟩,
   ⟨"Linux (linux-64), py312", "success", "2024-05-01T10:00:00Z", "2024-05-01T10:03:00Z"⟩,
   ⟨"Windows (win-64), py313", "failure", "2024-05-01T10:00:00Z", "2024-05-01T10:01:00Z"⟩]

def rowsC1 : List ResultRow :=
  [⟨17, "2024-05-01T00:00:00Z", "Windows (win-64), py312", 125, 125 / 60⟩]

def rowC2 : ResultRow := ⟨17, "2024-05-01T00:00:00Z", "Windows (win-64), py312", 125, 125 / 60⟩

def cutoffW : Int := toEpochSeconds ⟨2024, 4, 1, 0, 0, 0⟩

def runsPageA : RunsPage :=
  ⟨200, [⟨21, "2024-05-03T00:00:00Z", "success", "urlA"⟩,
         ⟨22, "2024-05-02T00:00:00Z", "failure", "urlB"⟩]⟩

def runsPageStop : RunsPage :=
  ⟨200, [⟨23, "2024-05-01T00:00:00Z", "success", "urlC"⟩,
         ⟨24, "2024-01-01T00:00:00Z", "success", "urlD"⟩]⟩

def runsPageExtra : RunsPage :=
  ⟨200, [⟨25, "2024-04-20T00:00:00Z", "success", "urlE"⟩]⟩

def retainedC3 : List WorkflowRun :=
  [⟨21, "2024-05-03T00:00:00Z", "success", "urlA"⟩,
   ⟨23, "2024-05-01T00:00:00Z", "success", "urlC"⟩]

def keptC3 : List WorkflowRun := [⟨23, "2024-05-01T00:00:00Z", "success", "urlC"⟩]

def srvC3 : Server :=
  ⟨[runsPageA, runsPageStop],
   fun _ => [⟨200, [⟨"windows tests", "success",
                     "2024-05-01T10:00:00Z", "2024-05-01T10:01:00Z"⟩]⟩]⟩

def rowsC3 : List ResultRow :=
  [⟨21, "2024-05-03T00:00:00Z", "windows tests", 60, 1⟩,
   ⟨23, "2024-05-01T00:00:00Z", "windows tests", 60, 1⟩]

def rowC3 : ResultRow := ⟨21, "2024-05-03T00:00:00Z", "windows tests", 60, 1⟩

def jpagesC7 : List JobsPage :=
  [⟨200, [⟨"windows smoke", "success", "2024-05-01T00:00:00Z", "2024-05-01T00:10:00Z"⟩]⟩]

def srv300 : Server := ⟨[⟨300, []⟩], fun _ => []⟩

def srvErrRuns : Server := ⟨[runsPageA, ⟨503, []⟩, runsPageExtra], fun _ => []⟩

def runJ : WorkflowRun := ⟨41, "2024-05-01T00:00:00Z", "success", "urlJ"⟩

def srvErrJobs : Server := ⟨[⟨200, [runJ]⟩], fun _ => [⟨404, []⟩]⟩

def tasksC6 : List (List ResultRow) :=
  [[⟨51, "2024-05-01T00:00:00Z", "windows a", 60, 1⟩],
   [⟨52, "2024-05-02T00:00:00Z", "windows b", 120, 2⟩]]

def outC6 : List ResultRow :=
  [⟨51, "2024-05-01T00:00:00Z", "windows a", 60, 1⟩,
   ⟨52, "2024-05-02T00:00:00Z", "windows b", 120, 2⟩]

def runsC6 : List WorkflowRun :=
  [⟨51, "2024-05-01T00:00:00Z", "success", "u51"⟩,
   ⟨52, "2024-05-02T00:00:00Z", "success", "u52"⟩]

def srvC6 : Server :=
  ⟨[⟨200, runsC6⟩],
   fun u =>
     if u = ("u51") then
       [⟨200, [⟨"windows a", "success", "2024-05-01T00:00:00Z", "2024-05-01T00:01:00Z"⟩]⟩]
     else
       [⟨200, [⟨"windows b", "success", "2024-05-02T00:00:00Z", "2024-05-02T00:02:00Z"⟩]⟩]⟩

def envC9a : CliEnv := ⟨none, .ok ("gh version 2.40.0"), .ok ("")⟩

def envC9b : CliEnv := ⟨some (""), .ok ("gh version 2.40.0"), .ok ("tok123")⟩

def envTok : CliEnv := ⟨some ("sekret"), .ok ("gh version 2.40.0"), .ok ("")⟩

def envFail : CliEnv := ⟨none, .error ("boom"), .ok ("x")⟩

def outFail : ProcOut :=
  ⟨[("ERROR: either the GitHub CLI is not found or not working."),
    ("After installation, authenticate with: gh auth login")],
   [("Please install the GitHub CLI from https://cli.github.com/")]⟩

def preC10 : List WorkflowRun :=
  [⟨31, "2024-05-03T00:00:00Z", "success", "u1"⟩,
   ⟨32, "2024-05-02T00:00:00Z", "cancelled", "u2"⟩]

def oldC10 : WorkflowRun := ⟨33, "2023-01-01T00:00:00Z", "success", "u3"⟩

def postC10 : List WorkflowRun := [⟨34, "2024-05-01T00:00:00Z", "success", "u4"⟩]

/-! ### Lemmas about the string primitives -/

theorem headMatches_iff (n h : List Char) :
    headMatches n h = true ↔ ∃ t, h = n ++ t := by
  induction n generalizing h with
  | nil => simp [headMatches]
  | cons c cs ih =>
    cases h with
    | nil => simp [headMatches]
    | cons d ds =>
      simp only [headMatches, Bool.and_eq_true, beq_iff_eq, ih, List.cons_append]
      constructor
      · rintro ⟨rfl, t, rfl⟩; exact ⟨t, rfl⟩
      · rintro ⟨t, ht⟩
        injection ht with h1 h2
        exact ⟨h1.symm, t, h2⟩

theorem hasSub_iff (h n : List Char) :
    hasSub h n = true ↔ ∃ a b, h = a ++ n ++ b := by
  induction h with
  | nil =>
    simp only [hasSub, List.isEmpty_iff]
    constructor
    · rintro rfl; exact ⟨[], [], rfl⟩
    · rintro ⟨a, b, hab⟩
      rcases List.append_eq_nil.mp hab.symm with ⟨h1, rfl⟩
      exact (List.append_eq_nil.mp h1).2
  | cons c rest ih =>
    simp only [hasSub, Bool.or_eq_true, headMatches_iff, ih]
    constructor
    · rintro (⟨t, ht⟩ | ⟨a, b, rfl⟩)
      · exact ⟨[], t, by simp [ht]⟩
      · exact ⟨c :: a, b, rfl⟩
    · rintro ⟨a, b, hab⟩
      cases a with
      | nil => exact Or.inl ⟨b, by simpa using hab⟩
      | cons x xs =>
        injection hab with h1 h2
        exact Or.inr ⟨xs, b, h2⟩

theorem pyIn_lower_iff (s : String) :
    pyIn ("windows") (pyLower s) = true ↔ nameHasWindows s := by
  show hasSub (s.data.map Char.toLower) (("windows").data) = true ↔ _
  rw [hasSub_iff]
  constructor
  · rintro ⟨a, b, hab⟩
    rw [List.append_assoc] at hab
    rcases List.map_eq_append_iff.mp hab with ⟨l₁, l₂, he, h₁, h₂⟩
    rcases List.map_eq_append_iff.mp h₂ with ⟨m, p, he₂, hm, hp⟩
    exact ⟨l₁, m, p, by rw [he, he₂, List.append_assoc], hm⟩
  · rintro ⟨pre, mid, post, hdec, hmid⟩
    refine ⟨pre.map Char.toLower, post.map Char.toLower, ?_⟩
    rw [hdec]
    simp [hmid]

theorem jobIncluded_iff (j : Job) :
    jobIncluded j = true ↔ (nameHasWindows j.name ∧ j.conclusion = "success") := by
  unfold jobIncluded
  rw [Bool.and_eq_true, pyIn_lower_iff, decide_eq_true_eq]

/-! ### Characterization of the Filter & Transform loop -/

theorem processJobs_ok (run : WorkflowRun) (jobs : List Job) (rows : List ResultRow)
    (h : processJobs run jobs = .ok rows) :
    rows = (jobs.filter jobIncluded).filterMap (rowOfJob run) := by
  induction jobs generalizing rows with
  | nil =>
    simp only [processJobs] at h
    injection h with h'
    simp [h'.symm]
  | cons j rest ih =>
    by_cases hj : jobIncluded j = true
    · rw [processJobs, if_pos hj] at h
      cases hc : parseTimestamp j.completed_at with
      | none => rw [hc] at h; cases h
      | some tc =>
        rw [hc] at h
        cases hs : parseTimestamp j.started_at with
        | none => rw [hs] at h; cases h
        | some ts =>
          rw [hs] at h
          cases hrec : processJobs run rest with
          | error e => rw [hrec] at h; cases h
          | ok rs =>
            rw [hrec] at h
            injection h with h'
            rw [← h', List.filter_cons_of_pos hj, List.filterMap_cons]
            have : rowOfJob run j =
                some (mkRow run j ((toEpochSeconds tc - toEpochSeconds ts : ℤ) : ℚ)) := by
              simp [rowOfJob, jobDuration, hc, hs]
            rw [this, ih rs hrec]
    · rw [processJobs, if_neg hj] at h
      rw [List.filter_cons_of_neg (by simpa using hj)]
      exact ih rows h

/-- Claim C1: for every job belonging to a retained run, the job
contributes a ResultRow iff its name contains the platform token
`"windows"` case-insensitively and its conclusion is `"success"`; the rows
produced are exactly those of the jobs passing this test, in order. -/
theorem claim_C1 (run : WorkflowRun) (jobs : List Job) (rows : List ResultRow)
    (h : processJobs run jobs = .ok rows) :
    rows = (jobs.filter jobIncluded).filterMap (rowOfJob run)
      ∧ ∀ j : Job, jobIncluded j = true ↔ (nameHasWindows j.name ∧ j.conclusion = "success") :=
  ⟨processJobs_ok run jobs rows h, fun j => jobIncluded_iff j⟩

theorem claim_C1_witness :
    processJobs runC1 jobsC1 = .ok rowsC1
      ∧ (rowsC1 = (jobsC1.filter jobIncluded).filterMap (rowOfJob runC1)
         ∧ ∀ j : Job, jobIncluded j = true ↔ (nameHasWindows j.name ∧ j.conclusion = "success")) :=
  ⟨by decide, claim_C1 runC1 jobsC1 rowsC1 (by decide)⟩

/-- Claim C2: every included ResultRow's `duration_seconds` is the job's
completion instant minus its start instant, in seconds, and its
`duration_minutes` is `duration_seconds / 60` exactly. -/
theorem claim_C2 (run : WorkflowRun) (jobs : List Job) (rows : List ResultRow)
    (row : ResultRow) (h : processJobs run jobs = .ok rows) (hmem : row ∈ rows) :
    (∃ j ∈ jobs, ∃ tc ts, parseTimestamp j.completed_at = some tc
        ∧ parseTimestamp j.started_at = some ts
        ∧ row.duration_seconds = ((toEpochSeconds tc - toEpochSeconds ts : ℤ) : ℚ))
      ∧ row.duration_minutes = row.duration_seconds / 60 := by
  induction jobs generalizing rows with
  | nil =>
    simp only [processJobs] at h
    injection h with h'
    rw [← h'] at hmem
    cases hmem
  | cons j rest ih =>
    by_cases hj : jobIncluded j = true
    · rw [processJobs, if_pos hj] at h
      cases hc : parseTimestamp j.completed_at with
      | none => rw [hc] at h; cases h
      | some tc =>
        rw [hc] at h
        cases hs : parseTimestamp j.started_at with
        | none => rw [hs] at h; cases h
        | some ts =>
          rw [hs] at h
          cases hrec : processJobs run rest with
          | error e => rw [hrec] at h; cases h
          | ok rs =>
            rw [hrec] at h
            injection h with h'
            rw [← h'] at hmem
            cases hmem with
            | head =>
              refine ⟨⟨j, List.mem_cons_self j rest, tc, ts, hc, hs, rfl⟩, rfl⟩
            | tail _ hm =>
              rcases ih rs hrec hm with ⟨⟨j', hj', rest'⟩, hmin⟩
              exact ⟨⟨j', List.mem_cons_of_mem j hj', rest'⟩, hmin⟩
    · rw [processJobs, if_neg hj] at h
      rcases ih rows h hmem with ⟨⟨j', hj', rest'⟩, hmin⟩
      exact ⟨⟨j', List.mem_cons_of_mem j hj', rest'⟩, hmin⟩

/-! ### Run Lister lemmas -/

theorem scanPage_ok_char (cutoff : Int) (rs : List WorkflowRun) (kept : List WorkflowRun)
    (cont : Bool) (h : scanPage cutoff rs = .ok (kept, cont)) :
    kept = (rs.takeWhile (runInWindow cutoff)).filter isSuccess
      ∧ cont = rs.all (runInWindow cutoff) := by
  induction rs generalizing kept cont with
  | nil =>
    simp only [scanPage] at h
    injection h with h'
    rw [Prod.mk.injEq] at h'
    obtain ⟨h1, h2⟩ := h'
    simp only [List.takeWhile_nil, List.filter_nil, List.all_nil]
    exact ⟨h1.symm, h2.symm⟩
  | cons r rs ih =>
    cases hp : parseTimestamp r.created_at with
    | none => simp only [scanPage, hp] at h; cases h
    | some t =>
      simp only [scanPage, hp] at h
      by_cases ht : toEpochSeconds t < cutoff
      · rw [if_pos ht] at h
        injection h with h'
        rw [Prod.mk.injEq] at h'
        obtain ⟨h1, h2⟩ := h'
        have hw : runInWindow cutoff r = false := by
          simp only [runInWindow, hp, decide_eq_false_iff_not]
          omega
        simp only [List.takeWhile_cons, hw, Bool.false_eq_true, if_false, List.filter_nil,
          List.all_cons, Bool.false_and]
        exact ⟨h1.symm, h2.symm⟩
      · rw [if_neg ht] at h
        cases hrec : scanPage cutoff rs with
        | error e => rw [hrec] at h; cases h
        | ok pr =>
          obtain ⟨k, c⟩ := pr
          rw [hrec] at h
          injection h with h'
          rw [Prod.mk.injEq] at h'
          obtain ⟨h1, h2⟩ := h'
          have hw : runInWindow cutoff r = true := by
            simp only [runInWindow, hp, decide_eq_true_eq]
            omega
          obtain ⟨hk, hc⟩ := ih k c hrec
          constructor
          · rw [← h1, hk]
            by_cases hs : r.conclusion = "success"
            · simp [List.takeWhile_cons, hw, List.filter_cons, isSuccess, hs]
            · simp [List.takeWhile_cons, hw, List.filter_cons, isSuccess, hs]
          · rw [← h2, hc]
            simp [List.all_cons, hw]

theorem listRunsFrom_ok_mem (cutoff : Int) (pages : List RunsPage)
    (acc runs : List WorkflowRun) (h : (listRunsFrom cutoff acc pages).2 = .ok runs)
    (r : WorkflowRun) (hr : r ∈ runs) :
    r ∈ acc ∨ (isSuccess r = true ∧ runInWindow cutoff r = true) := by
  induction pages generalizing acc with
  | nil =>
    simp only [listRunsFrom] at h
    injection h with h'
    rw [← h'] at hr
    exact Or.inl hr
  | cons p rest ih =>
    rw [listRunsFrom] at h
    by_cases h4 : 400 ≤ p.status
    · rw [if_pos h4] at h; cases h
    · rw [if_neg h4] at h
      by_cases he : p.runs.isEmpty
      · rw [if_pos he] at h
        injection h with h'
        rw [← h'] at hr
        exact Or.inl hr
      · rw [if_neg he] at h
        cases hsc : scanPage cutoff p.runs with
        | error e => rw [hsc] at h; cases h
        | ok pr =>
          obtain ⟨kept, cont⟩ := pr
          obtain ⟨hk, -⟩ := scanPage_ok_char cutoff p.runs kept cont hsc
          have hmemk : ∀ x ∈ kept, isSuccess x = true ∧ runInWindow cutoff x = true := by
            intro x hx
            rw [hk] at hx
            exact ⟨(List.mem_filter.mp hx).2,
              List.mem_takeWhile_imp (List.mem_filter.mp hx).1⟩
          cases cont with
          | true =>
            rw [hsc] at h
            rcases ih (acc ++ kept) h with hmem | hgood
            · rcases List.mem_append.mp hmem with ha | hb
              · exact Or.inl ha
              · exact Or.inr (hmemk r hb)
            · exact Or.inr hgood
          | false =>
            rw [hsc] at h
            have h' : (Except.ok (acc ++ kept) : Except FetchError (List WorkflowRun))
                = .ok runs := h
            injection h' with h''
            rw [← h''] at hr
            rcases List.mem_append.mp hr with ha | hb
            · exact Or.inl ha
            · exact Or.inr (hmemk r hb)

theorem processJobs_run_id (run : WorkflowRun) (jobs : List Job) (rows : List ResultRow)
    (h : processJobs run jobs = .ok rows) (row : ResultRow) (hr : row ∈ rows) :
    row.run_id = run.id := by
  rw [processJobs_ok run jobs rows h] at hr
  rcases List.mem_filterMap.mp hr with ⟨j, hj, hrow⟩
  unfold rowOfJob at hrow
  rcases Option.map_eq_some'.mp hrow with ⟨d, hd, hmk⟩
  rw [← hmk]
  rfl

theorem fetchRunRows_run_id (srv : Server) (run : WorkflowRun) (rows : List ResultRow)
    (h : fetchRunRows srv run = .ok rows) (row : ResultRow) (hr : row ∈ rows) :
    row.run_id = run.id := by
  unfold fetchRunRows at h
  cases hj : fetchJobPages [] (srv.jobsPages run.jobs_url) with
  | error e => rw [hj] at h; cases h
  | ok jobs =>
    rw [hj] at h
    exact processJobs_run_id run jobs rows h row hr

theorem fetchAllRows_mem (srv : Server) (runs : List WorkflowRun) (rows : List ResultRow)
    (h : fetchAllRows srv runs = .ok rows) (row : ResultRow) (hr : row ∈ rows) :
    ∃ r ∈ runs, ∃ rrows, fetchRunRows srv r = .ok rrows ∧ row ∈ rrows := by
  induction runs generalizing rows with
  | nil =>
    simp only [fetchAllRows] at h
    injection h with h'
    rw [← h'] at hr
    cases hr
  | cons r rest ih =>
    rw [fetchAllRows] at h
    cases h1 : fetchRunRows srv r with
    | error e => rw [h1] at h; cases h
    | ok rrows =>
      rw [h1] at h
      cases h2 : fetchAllRows srv rest with
      | error e => rw [h2] at h; cases h
      | ok more =>
        rw [h2] at h
        injection h with h'
        rw [← h'] at hr
        rcases List.mem_append.mp hr with ha | hb
        · exact ⟨r, List.mem_cons_self r rest, rrows, h1, ha⟩
        · rcases ih more h2 hb with ⟨r', hr', frr⟩
          exact ⟨r', List.mem_cons_of_mem r hr', frr⟩

/-- Claim C3: the Run Lister retains exactly the examined runs that are
successful and inside the window: every retained run concluded
successfully and was created at or after the cutoff; within a page the
retained runs are exactly the successful ones of the prefix examined
before the first too-old run; and every ResultRow of a successful batch
carries the id of a retained run whose conclusion is success, so no
ResultRow ever references a non-success run. -/
theorem claim_C3 :
    (∀ cutoff pages runs, (listRunsFrom cutoff [] pages).2 = .ok runs →
      ∀ r ∈ runs, r.conclusion = "success" ∧ runInWindow cutoff r = true)
    ∧ (∀ cutoff rs kept cont, scanPage cutoff rs = .ok (kept, cont) →
      kept = (rs.takeWhile (runInWindow cutoff)).filter isSuccess)
    ∧ (∀ srv cutoff rows row, pipeline srv cutoff = .ok rows → row ∈ rows →
      ∃ runs r, (listRunsFrom cutoff [] srv.runPages).2 = .ok runs ∧ r ∈ runs
        ∧ r.conclusion = "success" ∧ row.run_id = r.id) := by
  refine ⟨?_, ?_, ?_⟩
  · intro cutoff pages runs h r hr
    rcases listRunsFrom_ok_mem cutoff pages [] runs h r hr with hin | ⟨hs, hw⟩
    · cases hin
    · exact ⟨of_decide_eq_true hs, hw⟩
  · intro cutoff rs kept cont h
    exact (scanPage_ok_char cutoff rs kept cont h).1
  · intro srv cutoff rows row h hr
    unfold pipeline at h
    cases hl : (listRunsFrom cutoff [] srv.runPages).2 with
    | error e => rw [hl] at h; cases h
    | ok runs =>
      rw [hl] at h
      rcases fetchAllRows_mem srv runs rows h row hr with ⟨r, hrm, rrows, hfr, hrow⟩
      rcases listRunsFrom_ok_mem cutoff srv.runPages [] runs hl r hrm with hin | ⟨hs, -⟩
      · cases hin
      · exact ⟨runs, r, rfl, hrm, of_decide_eq_true hs,
          fetchRunRows_run_id srv r rrows hfr row hrow⟩


/-- Claim C10: once the first too-old run of a page is reached, the page's
remaining runs are discarded without examination: the scan's outcome does
not depend on them at all, and only the prefix before the first too-old
run contributes retained runs. -/
theorem claim_C10 (cutoff : Int) (pre : List WorkflowRun) (r : WorkflowRun)
    (post : List WorkflowRun) (h1 : pre.all (runInWindow cutoff) = true)
    (h2 : runTooOld cutoff r = true) :
    scanPage cutoff (pre ++ r :: post) = .ok (pre.filter isSuccess, false) := by
  induction pre with
  | nil =>
    unfold runTooOld at h2
    cases hp : parseTimestamp r.created_at with
    | none => rw [hp] at h2; cases h2
    | some t =>
      rw [hp] at h2
      rw [List.nil_append]
      simp only [scanPage, hp]
      rw [if_pos (of_decide_eq_true h2)]
      simp [List.filter_nil]
  | cons x xs ih =>
    rw [List.all_cons, Bool.and_eq_true] at h1
    obtain ⟨hx, hxs⟩ := h1
    unfold runInWindow at hx
    cases hp : parseTimestamp x.created_at with
    | none => rw [hp] at hx; cases hx
    | some t =>
      rw [hp] at hx
      rw [List.cons_append]
      simp only [scanPage, hp]
      rw [if_neg (not_lt.mpr (of_decide_eq_true hx)), ih hxs]
      by_cases hs : x.conclusion = "success"
      · simp [List.filter_cons, isSuccess, hs]
      · simp [List.filter_cons, isSuccess, hs]

/-- Claim C4: with every page before page `N` fully inside the window and
non-empty, and page `N` either containing a too-old run or empty, the Run
Lister requests exactly pages 1 through `N = pages₁.length + 1` and never
a further one: its outcome is independent of everything served after page
`N`. -/
theorem claim_C4 (cutoff : Int) (acc : List WorkflowRun) (pages₁ : List RunsPage)
    (p : RunsPage) (pages₂ : List RunsPage)
    (h1 : ∀ q ∈ pages₁, q.status < 400 ∧ q.runs ≠ [] ∧ pageContinues cutoff q = true)
    (h2 : p.status < 400)
    (h3 : pageStops cutoff p = true ∨ p.runs = []) :
    (listRunsFrom cutoff acc (pages₁ ++ p :: pages₂)).1 = pages₁.length + 1
      ∧ listRunsFrom cutoff acc (pages₁ ++ p :: pages₂)
          = listRunsFrom cutoff acc (pages₁ ++ [p]) := by
  induction pages₁ generalizing acc with
  | nil =>
    simp only [List.nil_append, List.length_nil]
    rcases h3 with hstop | hemp
    · unfold pageStops at hstop
      cases hsc : scanPage cutoff p.runs with
      | error e => rw [hsc] at hstop; cases hstop
      | ok pr =>
        obtain ⟨kept, cont⟩ := pr
        rw [hsc] at hstop
        cases cont with
        | true => cases hstop
        | false =>
          have hne : ¬ p.runs.isEmpty = true := by
            intro hcontra
            rw [List.isEmpty_iff.mp hcontra] at hsc
            simp only [scanPage] at hsc
            injection hsc with h'
            have := congrArg Prod.snd h'
            cases this
          constructor
          · rw [listRunsFrom, if_neg (not_le.mpr h2), if_neg hne, hsc]
          · rw [listRunsFrom, if_neg (not_le.mpr h2), if_neg hne, hsc,
              listRunsFrom, if_neg (not_le.mpr h2), if_neg hne, hsc]
    · have he : p.runs.isEmpty = true := by rw [hemp]; rfl
      constructor
      · rw [listRunsFrom, if_neg (not_le.mpr h2), if_pos he]
      · rw [listRunsFrom, if_neg (not_le.mpr h2), if_pos he,
          listRunsFrom, if_neg (not_le.mpr h2), if_pos he]
  | cons q qs ih =>
    obtain ⟨hst, hne, hcont⟩ := h1 q (List.mem_cons_self q qs)
    have h1' : ∀ x ∈ qs, x.status < 400 ∧ x.runs ≠ [] ∧ pageContinues cutoff x = true :=
      fun x hx => h1 x (List.mem_cons_of_mem q hx)
    have hneb : ¬ q.runs.isEmpty = true := by
      intro hcontra
      exact hne (List.isEmpty_iff.mp hcontra)
    unfold pageContinues at hcont
    cases hsc : scanPage cutoff q.runs with
    | error e => rw [hsc] at hcont; cases hcont
    | ok pr =>
      obtain ⟨kept, cont⟩ := pr
      rw [hsc] at hcont
      cases cont with
      | false => cases hcont
      | true =>
        obtain ⟨ihc, ihe⟩ := ih (acc ++ kept) h1'
        constructor
        · rw [List.cons_append, listRunsFrom, if_neg (not_le.mpr hst), if_neg hneb, hsc]
          show (listRunsFrom cutoff (acc ++ kept) (qs ++ p :: pages₂)).1 + 1
              = (q :: qs).length + 1
          rw [ihc, List.length_cons]
        · rw [List.cons_append, listRunsFrom, if_neg (not_le.mpr hst), if_neg hneb, hsc,
            List.cons_append, listRunsFrom, if_neg (not_le.mpr hst), if_neg hneb, hsc]
          show ((listRunsFrom cutoff (acc ++ kept) (qs ++ p :: pages₂)).1 + 1,
                (listRunsFrom cutoff (acc ++ kept) (qs ++ p :: pages₂)).2)
              = ((listRunsFrom cutoff (acc ++ kept) (qs ++ [p])).1 + 1,
                 (listRunsFrom cutoff (acc ++ kept) (qs ++ [p])).2)
          rw [ihe]

theorem claim_C2_witness :
    processJobs runC1 jobsC1 = .ok rowsC1 ∧ rowC2 ∈ rowsC1
      ∧ ((∃ j ∈ jobsC1, ∃ tc ts, parseTimestamp j.completed_at = some tc
            ∧ parseTimestamp j.started_at = some ts
            ∧ rowC2.duration_seconds = ((toEpochSeconds tc - toEpochSeconds ts : ℤ) : ℚ))
          ∧ rowC2.duration_minutes = rowC2.duration_seconds / 60) :=
  ⟨by decide, by decide,
   claim_C2 runC1 jobsC1 rowsC1 rowC2 (by decide) (by decide)⟩

theorem claim_C3_witness :
    (∀ r ∈ retainedC3, r.conclusion = "success" ∧ runInWindow cutoffW r = true)
      ∧ keptC3 = (runsPageStop.runs.takeWhile (runInWindow cutoffW)).filter isSuccess
      ∧ (∃ runs r, (listRunsFrom cutoffW [] srvC3.runPages).2 = .ok runs ∧ r ∈ runs
          ∧ r.conclusion = "success" ∧ rowC3.run_id = r.id) :=
  ⟨fun r hr => claim_C3.1 cutoffW [runsPageA, runsPageStop] retainedC3 (by decide) r hr,
   claim_C3.2.1 cutoffW runsPageStop.runs keptC3 false (by decide),
   claim_C3.2.2 srvC3 cutoffW rowsC3 rowC3 (by decide) (by decide)⟩

theorem claim_C4_witness :
    (listRunsFrom cutoffW [] ([runsPageA] ++ runsPageStop :: [runsPageExtra])).1
        = [runsPageA].length + 1
      ∧ listRunsFrom cutoffW [] ([runsPageA] ++ runsPageStop :: [runsPageExtra])
          = listRunsFrom cutoffW [] ([runsPageA] ++ [runsPageStop]) :=
  claim_C4 cutoffW [] [runsPageA] runsPageStop [runsPageExtra]
    (by decide) (by decide) (by decide)

theorem claim_C10_witness :
    preC10.all (runInWindow cutoffW) = true ∧ runTooOld cutoffW oldC10 = true
      ∧ scanPage cutoffW (preC10 ++ oldC10 :: postC10)
          = .ok (preC10.filter isSuccess, false) :=
  ⟨by decide, by decide,
   claim_C10 cutoffW preC10 oldC10 postC10 (by decide) (by decide)⟩

/-! ### Job Fetcher lemmas -/

theorem fetchJobPages_consumed (pages : List JobsPage) :
    ∀ acc, (∀ p ∈ pages, p.status < 400) →
      fetchJobPages acc pages = .ok (acc ++ (consumedJobPages pages).flatten) := by
  induction pages with
  | nil =>
    intro acc _
    simp [fetchJobPages, consumedJobPages]
  | cons p rest ih =>
    intro acc hok
    have hst : p.status < 400 := hok p (List.mem_cons_self p rest)
    have hrest : ∀ q ∈ rest, q.status < 400 := fun q hq => hok q (List.mem_cons_of_mem p hq)
    rw [fetchJobPages, if_neg (not_le.mpr hst)]
    by_cases hemp : p.jobs.isEmpty = true
    · rw [if_pos hemp]
      have hjw : p.jobs = [] := List.isEmpty_iff.mp hemp
      simp [consumedJobPages, hjw]
    · rw [if_neg hemp]
      by_cases hlen : p.jobs.length < 100
      · rw [if_pos hlen]
        simp [consumedJobPages, hlen]
      · rw [if_neg hlen, ih (acc ++ p.jobs) hrest]
        simp [consumedJobPages, hlen, List.append_assoc]

theorem chunkJobs_flatten (L : List Job) : (chunkJobs L).flatten = L := by
  induction L using chunkJobs.induct with
  | case1 => simp [chunkJobs]
  | case2 j rest ih =>
    rw [chunkJobs]
    simp only [List.flatten_cons, ih, List.take_append_drop]

theorem consumed_chunk (L : List Job) : consumedJobPages (chunkPagesOk L) = chunkJobs L := by
  induction L using chunkJobs.induct with
  | case1 => simp [chunkJobs, chunkPagesOk, consumedJobPages]
  | case2 j rest ih =>
    have hunf : chunkPagesOk (j :: rest)
        = ⟨200, (j :: rest).take 100⟩ :: chunkPagesOk ((j :: rest).drop 100) := by
      unfold chunkPagesOk
      rw [chunkJobs]
      rfl
    rw [hunf, chunkJobs]
    by_cases hlen : ((j :: rest).take 100).length < 100
    · have hdrop : (j :: rest).drop 100 = [] := by
        rw [List.drop_eq_nil_iff]
        rw [List.length_take] at hlen
        simp only [List.length_cons] at hlen ⊢
        omega
      rw [hdrop, consumedJobPages, if_pos hlen, chunkJobs]
    · rw [consumedJobPages, if_neg hlen, ih]

/-- Claim C7: the job fetcher stops exactly at the first page shorter than
the page size (an empty page included), accumulating the concatenation of
the pages it consumed; against an endpoint that serves a finite job list in
100-job slices it terminates with precisely that job list. -/
theorem claim_C7 :
    (∀ pages, (∀ p ∈ pages, p.status < 400) →
      fetchJobPages [] pages = .ok ((consumedJobPages pages).flatten))
    ∧ ∀ L, fetchJobPages [] (chunkPagesOk L) = .ok L := by
  constructor
  · intro pages hok
    simpa using fetchJobPages_consumed pages [] hok
  · intro L
    have hok : ∀ p ∈ chunkPagesOk L, p.status < 400 := by
      intro p hp
      rcases List.mem_map.mp hp with ⟨c, hc, rfl⟩
      show (200 : Nat) < 400
      omega
    have h1 := fetchJobPages_consumed (chunkPagesOk L) [] hok
    rw [consumed_chunk, chunkJobs_flatten] at h1
    simpa using h1

theorem claim_C7_witness :
    fetchJobPages [] jpagesC7 = .ok ((consumedJobPages jpagesC7).flatten)
      ∧ fetchJobPages [] (chunkPagesOk jobsC1) = .ok jobsC1 :=
  ⟨claim_C7.1 jpagesC7 (by decide), claim_C7.2 jobsC1⟩

/-! ### Fatal HTTP errors -/

theorem listRunsFrom_error (cutoff : Int) (pages₁ : List RunsPage) (p : RunsPage)
    (pages₂ : List RunsPage) :
    ∀ acc, (∀ q ∈ pages₁, q.status < 400 ∧ q.runs ≠ [] ∧ pageContinues cutoff q = true) →
      400 ≤ p.status →
      listRunsFrom cutoff acc (pages₁ ++ p :: pages₂)
        = (pages₁.length + 1, .error (.http p.status)) := by
  induction pages₁ with
  | nil =>
    intro acc _ h4
    rw [List.nil_append, listRunsFrom, if_pos h4, List.length_nil]
  | cons q qs ih =>
    intro acc h1 h4
    obtain ⟨hst, hne, hcont⟩ := h1 q (List.mem_cons_self q qs)
    have h1' : ∀ x ∈ qs, x.status < 400 ∧ x.runs ≠ [] ∧ pageContinues cutoff x = true :=
      fun x hx => h1 x (List.mem_cons_of_mem q hx)
    have hneb : ¬ q.runs.isEmpty = true := fun hcontra => hne (List.isEmpty_iff.mp hcontra)
    unfold pageContinues at hcont
    cases hsc : scanPage cutoff q.runs with
    | error e => rw [hsc] at hcont; cases hcont
    | ok pr =>
      obtain ⟨kept, cont⟩ := pr
      rw [hsc] at hcont
      cases cont with
      | false => cases hcont
      | true =>
        rw [List.cons_append, listRunsFrom, if_neg (not_le.mpr hst), if_neg hneb, hsc]
        show ((listRunsFrom cutoff (acc ++ kept) (qs ++ p :: pages₂)).1 + 1,
              (listRunsFrom cutoff (acc ++ kept) (qs ++ p :: pages₂)).2)
            = ((q :: qs).length + 1, .error (.http p.status))
        rw [ih (acc ++ kept) h1' h4, List.length_cons]

theorem fetchJobPages_error (pages₁ : List JobsPage) (p : JobsPage) (pages₂ : List JobsPage) :
    ∀ acc, (∀ q ∈ pages₁, q.status < 400 ∧ q.jobs.length = 100) → 400 ≤ p.status →
      fetchJobPages acc (pages₁ ++ p :: pages₂) = .error (.http p.status) := by
  induction pages₁ with
  | nil =>
    intro acc _ h4
    rw [List.nil_append, fetchJobPages, if_pos h4]
  | cons q qs ih =>
    intro acc hq h4
    obtain ⟨hst, hlen⟩ := hq q (List.mem_cons_self q qs)
    have hemp : ¬ q.jobs.isEmpty = true := by
      intro hcontra
      rw [List.isEmpty_iff.mp hcontra] at hlen
      cases hlen
    have hnl : ¬ q.jobs.length < 100 := by omega
    rw [List.cons_append, fetchJobPages, if_neg (not_le.mpr hst), if_neg hemp, if_neg hnl]
    exact ih (acc ++ q.jobs) (fun x hx => hq x (List.mem_cons_of_mem q hx)) h4

theorem fetchAllRows_error_at (srv : Server) (runs₁ : List WorkflowRun) (r : WorkflowRun)
    (runs₂ : List WorkflowRun) (e : FetchError)
    (h1 : ∀ r' ∈ runs₁, isOkE (fetchRunRows srv r') = true)
    (h2 : fetchRunRows srv r = .error e) :
    fetchAllRows srv (runs₁ ++ r :: runs₂) = .error e := by
  induction runs₁ with
  | nil => rw [List.nil_append, fetchAllRows, h2]
  | cons x xs ih =>
    have hx := h1 x (List.mem_cons_self x xs)
    cases hfx : fetchRunRows srv x with
    | error e' => rw [hfx] at hx; simp [isOkE] at hx
    | ok rows =>
      rw [List.cons_append, fetchAllRows, hfx,
        ih (fun y hy => h1 y (List.mem_cons_of_mem x hy))]

/-- Claim C5 (amended): any response with status at least 400 — the 4xx/5xx
statuses for which `raise_for_status` raises — from either endpoint aborts
the whole batch with a fatal error the moment it is consumed: the run
lister abandons the batch on the page that errored regardless of anything
served later (no retry, no further page), an erroring job listing of any
retained run likewise aborts the batch, and in both cases no CSV output
exists.  (A non-2xx status below 400 does not by itself abort; see the
counterexample.) -/
theorem claim_C5 :
    (∀ srv cutoff pages₁ p pages₂,
      srv.runPages = pages₁ ++ p :: pages₂ →
      (∀ q ∈ pages₁, q.status < 400 ∧ q.runs ≠ [] ∧ pageContinues cutoff q = true) →
      400 ≤ p.status →
      pipelineCsv srv cutoff = .error (.http p.status))
    ∧ (∀ srv cutoff runs₁ r runs₂ pages₁ p pages₂,
      (listRunsFrom cutoff [] srv.runPages).2 = .ok (runs₁ ++ r :: runs₂) →
      (∀ r' ∈ runs₁, isOkE (fetchRunRows srv r') = true) →
      srv.jobsPages r.jobs_url = pages₁ ++ p :: pages₂ →
      (∀ q ∈ pages₁, q.status < 400 ∧ q.jobs.length = 100) →
      400 ≤ p.status →
      pipelineCsv srv cutoff = .error (.http p.status)) := by
  constructor
  · intro srv cutoff pages₁ p pages₂ hsrv h1 h4
    have hpipe : pipeline srv cutoff = .error (.http p.status) := by
      unfold pipeline
      rw [hsrv, listRunsFrom_error cutoff pages₁ p pages₂ [] h1 h4]
    unfold pipelineCsv
    rw [hpipe]
  · intro srv cutoff runs₁ r runs₂ pages₁ p pages₂ hruns h1 hjp hq h4
    have hfr : fetchRunRows srv r = .error (.http p.status) := by
      unfold fetchRunRows
      rw [hjp, fetchJobPages_error pages₁ p pages₂ [] hq h4]
    have hpipe : pipeline srv cutoff = .error (.http p.status) := by
      unfold pipeline
      rw [hruns]
      exact fetchAllRows_error_at srv runs₁ r runs₂ _ h1 hfr
    unfold pipelineCsv
    rw [hpipe]

/-- Claim C5, as stated, is false: a non-2xx response that is below 400
does not abort the batch.  Serving a 300-status first page leaves
`raise_for_status` silent; here the batch completes and a CSV (its header)
is produced. -/
theorem claim_C5_counterexample :
    (∀ q ∈ srv300.runPages, ¬ (200 ≤ q.status ∧ q.status ≤ 299))
      ∧ (listRunsFrom 0 [] srv300.runPages).1 = 1
      ∧ pipeline srv300 0 = .ok []
      ∧ isOkE (pipelineCsv srv300 0) = true :=
  ⟨by decide, by decide, by decide, rfl⟩

theorem claim_C5_witness :
    pipelineCsv srvErrRuns cutoffW = .error (.http 503)
      ∧ pipelineCsv srvErrJobs cutoffW = .error (.http 404) :=
  ⟨claim_C5.1 srvErrRuns cutoffW [runsPageA] ⟨503, []⟩ [runsPageExtra]
      rfl (by decide) (by decide),
   claim_C5.2 srvErrJobs cutoffW [] runJ [] [] ⟨404, []⟩ []
      (by decide) (by decide) rfl (by decide) (by decide)⟩

/-! ### Determinism of the gathered aggregation -/

theorem applySlots_length (es : List (Nat × List ResultRow)) :
    ∀ slots : List (Option (List ResultRow)), (applySlots slots es).length = slots.length := by
  induction es with
  | nil => intro slots; rfl
  | cons ev rest ih =>
    obtain ⟨i, v⟩ := ev
    intro slots
    rw [applySlots, ih, List.length_set]

theorem applySlots_inv (tasks : List (List ResultRow)) (es : List (Nat × List ResultRow))
    (hev : ∀ iv ∈ es, tasks[iv.1]? = some iv.2) :
    ∀ slots : List (Option (List ResultRow)),
      (∀ (i : Nat) (v : List ResultRow), slots[i]? = some (some v) → tasks[i]? = some v) →
      ∀ (i : Nat) (v : List ResultRow),
        (applySlots slots es)[i]? = some (some v) → tasks[i]? = some v := by
  induction es with
  | nil => intro slots hinv; exact hinv
  | cons ev rest ih =>
    obtain ⟨k, v⟩ := ev
    intro slots hinv i w happ
    have hev' : ∀ iv ∈ rest, tasks[iv.1]? = some iv.2 :=
      fun iv hiv => hev iv (List.mem_cons_of_mem _ hiv)
    have hevk : tasks[k]? = some v := hev (k, v) (List.mem_cons_self _ _)
    refine ih hev' (slots.set k (some v)) ?_ i w happ
    intro i' v' hset
    rw [List.getElem?_set] at hset
    by_cases hik : k = i'
    · rw [if_pos hik] at hset
      by_cases hkl : k < slots.length
      · rw [if_pos hkl] at hset
        injection hset with hset'
        injection hset' with hset''
        rw [← hik, ← hset'']
        exact hevk
      · rw [if_neg hkl] at hset
        cases hset
    · rw [if_neg hik] at hset
      exact hinv i' v' hset

theorem slots_filterMap_eq (tasks : List (List ResultRow)) :
    ∀ slots : List (Option (List ResultRow)), slots.length = tasks.length →
      (∀ (i : Nat) (v : List ResultRow), slots[i]? = some (some v) → tasks[i]? = some v) →
      (slots.filterMap id).length = tasks.length →
      slots.filterMap id = tasks := by
  induction tasks with
  | nil =>
    intro slots hlen _ _
    rw [List.length_eq_zero.mp hlen]
    rfl
  | cons t ts ih =>
    intro slots hlen hinv hflen
    cases slots with
    | nil => cases hlen
    | cons s srest =>
      simp only [List.length_cons] at hlen
      cases s with
      | none =>
        exfalso
        have hflen' : (List.filterMap id srest).length = (t :: ts).length := hflen
        have hle := List.length_filterMap_le id srest
        simp only [List.length_cons] at hflen'
        omega
      | some v =>
        have ht : t = v := by
          have h0 := hinv 0 v (by simp)
          simpa using h0
        show v :: List.filterMap id srest = t :: ts
        rw [ht]
        congr 1
        have hflen' : (v :: List.filterMap id srest).length = (t :: ts).length := hflen
        simp only [List.length_cons] at hflen'
        refine ih srest (by omega) ?_ (by omega)
        intro i w hw
        have := hinv (i + 1) w (by simpa using hw)
        simpa using this

theorem gatherSim_det (tasks : List (List ResultRow)) (σ : List Nat)
    (out : List (List ResultRow)) (h : gatherSim tasks σ = some out) : out = tasks := by
  unfold gatherSim at h
  by_cases hc : ((applySlots (List.replicate tasks.length none)
      (taskEvents tasks σ)).filterMap id).length = tasks.length
  · rw [if_pos hc] at h
    injection h with h'
    rw [← h']
    refine slots_filterMap_eq tasks _ ?_ ?_ hc
    · rw [applySlots_length, List.length_replicate]
    · refine applySlots_inv tasks (taskEvents tasks σ) ?_ _ ?_
      · intro iv hiv
        rcases List.mem_filterMap.mp hiv with ⟨i, hi, heq⟩
        rcases Option.map_eq_some'.mp heq with ⟨w, hw, hivw⟩
        rw [← hivw]
        exact hw
      · intro i v h0
        rw [List.getElem?_replicate] at h0
        by_cases hin : i < tasks.length
        · rw [if_pos hin] at h0
          injection h0 with h0'
          cases h0'
        · rw [if_neg hin] at h0
          cases h0
  · rw [if_neg hc] at h
    cases h

theorem gatherFlat_det (tasks : List (List ResultRow)) (σ : List Nat)
    (out : List ResultRow) (h : gatherFlat tasks σ = some out) : out = tasks.flatten := by
  unfold gatherFlat at h
  cases hg : gatherSim tasks σ with
  | none => rw [hg] at h; cases h
  | some cells =>
    rw [hg] at h
    injection h with h'
    rw [← h', gatherSim_det tasks σ cells hg]

theorem rowsPerRun_flatten (srv : Server) (runs : List WorkflowRun)
    (rowss : List (List ResultRow)) (h : rowsPerRun srv runs = .ok rowss) :
    fetchAllRows srv runs = .ok rowss.flatten := by
  induction runs generalizing rowss with
  | nil =>
    simp only [rowsPerRun] at h
    injection h with h'
    rw [← h']
    rfl
  | cons r rs ih =>
    rw [rowsPerRun] at h
    cases h1 : fetchRunRows srv r with
    | error e => rw [h1] at h; cases h
    | ok rows =>
      rw [h1] at h
      cases h2 : rowsPerRun srv rs with
      | error e => rw [h2] at h; cases h
      | ok rest =>
        rw [h2] at h
        injection h with h'
        rw [← h']
        rw [fetchAllRows, h1, ih rest h2]
        rfl

/-- Claim C6 (amended): under the parallel policy the aggregated result
list is order-deterministic: `asyncio.gather` returns the per-task outputs
in task-submission order whatever the completion schedule, so every
completed execution flattens to the per-run results concatenated in
run-listing order — the same list the sequential policy produces. -/
theorem claim_C6 :
    (∀ tasks σ out, gatherFlat tasks σ = some out → out = tasks.flatten)
    ∧ (∀ srv runs σ out rowss, rowsPerRun srv runs = .ok rowss →
        gatherFlat rowss σ = some out → fetchAllRows srv runs = .ok out) := by
  constructor
  · exact gatherFlat_det
  · intro srv runs σ out rowss h1 h2
    rw [gatherFlat_det rowss σ out h2]
    exact rowsPerRun_flatten srv runs rowss h1

/-- Claim C6, as stated, is false: no two completion schedules over these
identical inputs can flatten to differently-ordered result lists, because
`gather` slots each task's output at its submission index. -/
theorem claim_C6_counterexample :
    ¬ ∃ σ₁ σ₂ out₁ out₂, gatherFlat tasksC6 σ₁ = some out₁
        ∧ gatherFlat tasksC6 σ₂ = some out₂ ∧ out₁ ≠ out₂ := by
  rintro ⟨σ₁, σ₂, o₁, o₂, h₁, h₂, hne⟩
  exact hne ((gatherFlat_det tasksC6 σ₁ o₁ h₁).trans (gatherFlat_det tasksC6 σ₂ o₂ h₂).symm)

theorem claim_C6_witness :
    gatherFlat tasksC6 [1, 0] = some outC6
      ∧ outC6 = tasksC6.flatten
      ∧ rowsPerRun srvC6 runsC6 = .ok tasksC6
      ∧ fetchAllRows srvC6 runsC6 = .ok outC6 :=
  ⟨by decide, claim_C6.1 tasksC6 [1, 0] outC6 (by decide), by decide,
   claim_C6.2 srvC6 runsC6 [1, 0] outC6 tasksC6 (by decide) (by decide)⟩

/-! ### CSV Writer -/

theorem writeCsv_linesToFile (rows : List ResultRow) :
    writeCsv rows = linesToFile (csvLinesSpec rows) := by
  unfold writeCsv csvLinesSpec
  have key : ∀ (rs : List ResultRow) (buf : String),
      List.foldl (fun b r => b ++ csvLine (csvFieldNames.map (getCsvField r)) ++ ("\n")) buf rs
        = buf ++ linesToFile (rs.map (fun r => csvLine (csvFieldNames.map (getCsvField r)))) := by
    intro rs
    induction rs with
    | nil =>
      intro buf
      simp [linesToFile]
    | cons r rest ih =>
      intro buf
      rw [List.foldl_cons, ih, List.map_cons, linesToFile]
      simp [String.append_assoc]
  rw [key, linesToFile]

/-- Claim C8: the CSV writer emits exactly one header line carrying the
five field names `run_id`, `run_date`, `job_name`, `duration_seconds`,
`duration_minutes` in that order, followed by one line per ResultRow in
production order, every line (header included) terminated by a lone line
feed. -/
theorem claim_C8 (rows : List ResultRow) :
    writeCsv rows = linesToFile (csvLinesSpec rows)
      ∧ csvLinesSpec rows
          = csvLine [("run_id"), ("run_date"), ("job_name"),
              ("duration_seconds"), ("duration_minutes")]
            :: rows.map (fun r => csvLine (csvFieldNames.map (getCsvField r)))
      ∧ (csvLinesSpec rows).length = rows.length + 1 := by
  refine ⟨writeCsv_linesToFile rows, rfl, ?_⟩
  rw [csvLinesSpec, List.length_cons, List.length_map]

/-! ### Credential resolution -/

theorem ghCliFlow_exit (env : CliEnv) (c : Nat) (out : ProcOut)
    (h : ghCliFlow env = .exit c out) :
    c = 1 ∧ out.stdoutLines ≠ [] ∧ (out.stderrLines ≠ [] ↔ isOkE env.ghVersion = false) := by
  cases hv : env.ghVersion with
  | error e =>
    simp only [ghCliFlow, hv] at h
    injection h with h1 h2
    rw [← h1, ← h2]
    refine ⟨rfl, by simp, by simp [isOkE]⟩
  | ok v =>
    cases ha : env.ghAuthToken with
    | ok s =>
      simp only [ghCliFlow, hv, ha] at h
      by_cases hs : pyStrip s = ("")
      · rw [if_pos hs] at h
        injection h with h1 h2
        rw [← h1, ← h2]
        refine ⟨rfl, by simp, by simp [isOkE]⟩
      · rw [if_neg hs] at h
        cases h
    | error e =>
      simp only [ghCliFlow, hv, ha] at h
      injection h with h1 h2
      rw [← h1, ← h2]
      refine ⟨rfl, by simp, by simp [isOkE]⟩

/-- Claim C9 (amended): credential resolution uses the token environment
variable when it is present and non-empty; otherwise it asks the gh CLI
for a token (stripped of surrounding whitespace); whenever the token is
missing or cannot be obtained the process exits fatally with code 1 and
prints diagnostics — all of them to standard output, except in the
CLI-missing case, whose installation hint alone goes to standard error. -/
theorem claim_C9_amended :
    (∀ env t, env.githubToken = some t → t ≠ ("") →
      get_gh_token env = .ok t ⟨[("Using GITHUB_TOKEN from environment variable")], []⟩)
    ∧ (∀ env v s, (env.githubToken = none ∨ env.githubToken = some ("")) →
        env.ghVersion = .ok v → env.ghAuthToken = .ok s → pyStrip s ≠ ("") →
        get_gh_token env
          = .ok (pyStrip s) ⟨[("Found gh CLI: ") ++ pyStrip v,
                           ("Successfully retrieved a token from the GitHub CLI")], []⟩)
    ∧ (∀ env c out, get_gh_token env = .exit c out →
        c = 1 ∧ out.stdoutLines ≠ []
          ∧ (out.stderrLines ≠ [] ↔ isOkE env.ghVersion = false)) := by
  refine ⟨?_, ?_, ?_⟩
  · intro env t ht hne
    simp only [get_gh_token, ht]
    rw [if_neg hne]
  · intro env v s henv hv hs hne
    have hcli : ghCliFlow env
        = .ok (pyStrip s) ⟨[("Found gh CLI: ") ++ pyStrip v,
                         ("Successfully retrieved a token from the GitHub CLI")], []⟩ := by
      simp only [ghCliFlow, hv, hs]
      rw [if_neg hne]
    rcases henv with hn | he
    · simp only [get_gh_token, hn]
      exact hcli
    · simp only [get_gh_token, he]
      rw [if_true]
      exact hcli
  · intro env c out h
    cases henv : env.githubToken with
    | some t =>
      simp only [get_gh_token, henv] at h
      by_cases ht : t = ("")
      · rw [if_pos ht] at h
        exact ghCliFlow_exit env c out h
      · rw [if_neg ht] at h
        cases h
    | none =>
      simp only [get_gh_token, henv] at h
      exact ghCliFlow_exit env c out h

/-- Claim C9, as stated, is false on two counts: a failed token retrieval
exits fatally with its diagnostics on standard output and nothing on
standard error, and a present-but-empty `GITHUB_TOKEN` is not used (Python
truthiness sends it down the CLI path). -/
theorem claim_C9_counterexample :
    get_gh_token envC9a
        = .exit 1 ⟨[("Found gh CLI: gh version 2.40.0"),
                    ("ERROR: gh auth token returned empty result"),
                    ("Please authenticate with: gh auth login")], []⟩
      ∧ get_gh_token envC9b
          = .ok ("tok123") ⟨[("Found gh CLI: gh version 2.40.0"),
                             ("Successfully retrieved a token from the GitHub CLI")], []⟩ := by
  constructor
  · decide
  · decide

theorem claim_C9_witness :
    get_gh_token envTok = .ok ("sekret") ⟨[("Using GITHUB_TOKEN from environment variable")], []⟩
      ∧ get_gh_token envC9b
          = .ok (pyStrip ("tok123")) ⟨[("Found gh CLI: ") ++ pyStrip ("gh version 2.40.0"),
                                    ("Successfully retrieved a token from the GitHub CLI")], []⟩
      ∧ ((1 : Nat) = 1 ∧ outFail.stdoutLines ≠ []
          ∧ (outFail.stderrLines ≠ [] ↔ isOkE envFail.ghVersion = false)) :=
  ⟨claim_C9_amended.1 envTok ("sekret") rfl (by decide),
   claim_C9_amended.2.1 envC9b ("gh version 2.40.0") ("tok123") (Or.inr rfl) rfl rfl (by decide),
   claim_C9_amended.2.2 envFail 1 outFail (by decide)⟩

end CondaCI
